import Mathlib

/-!
Verification of the tsytatobot repository: a shallow embedding of the date
codec (`date_parser/date_parser.py`), the text generator
(`quote_generator/quote_text_generator.py`), the image generator
(`quote_generator/quote_image_generator.py`), the JSON speaker repository
(`persistence/impl/local_files/json/json_speaker_repository.py`) and the
authoring state machine of `tsytatobot.py`, with theorems settling the
stated properties.
-/

namespace Tsytato

/-- Calendar date (day, month, year): the projection of a Python `datetime`
that the repository uses (only the `%d`, `%m`, `%Y` fields ever matter). -/
structure Date where
  day : Nat
  month : Nat
  year : Nat
deriving DecidableEq, Repr

/-- Gregorian leap-year rule, as Python's `datetime` implements it. -/
def isLeapYear (y : Nat) : Bool :=
  y % 4 == 0 && (y % 100 != 0 || y % 400 == 0)

/-- Number of days in month `m` of year `y`, as `datetime.date` validates. -/
def daysInMonth (m y : Nat) : Nat :=
  if m == 2 then (if isLeapYear y then 29 else 28)
  else if m == 4 || m == 6 || m == 9 || m == 11 then 30
  else 31

/-- Validity of `datetime.date(y, m, d)`: year in `MINYEAR..MAXYEAR`,
month in `1..12`, day in `1..days_in_month`. -/
def validDMY (d m y : Nat) : Bool :=
  decide (1 ≤ y) && decide (y ≤ 9999) && decide (1 ≤ m) && decide (m ≤ 12)
    && decide (1 ≤ d) && decide (d ≤ daysInMonth m y)

/-- ASCII decimal digit test (code points 48..57), the `\d`-class membership
used by the `_strptime` regular expressions on the inputs at hand. -/
def isDigitChar (c : Char) : Bool :=
  decide (48 ≤ c.toNat) && decide (c.toNat ≤ 57)

/-- Numeric value of an ASCII digit character. -/
def digitVal (c : Char) : Nat := c.toNat - 48

/-- ASCII digit character of a value below ten. -/
def digitChar (n : Nat) : Char := Char.ofNat (48 + n)

/-- Python `str.lower` restricted to the ASCII range (code points 65..90 map
down by 32), which covers every character the repository compares after
lowering. -/
def pyLowerChar (c : Char) : Char :=
  if 65 ≤ c.toNat ∧ c.toNat ≤ 90 then Char.ofNat (c.toNat + 32) else c

/-- Python `str.strip` whitespace class (ASCII part). -/
def pyIsSpace (c : Char) : Bool :=
  c == ' ' || c == '\t' || c == '\n' || c == '\r' || c == Char.ofNat 11 || c == Char.ofNat 12

/-- Remove trailing whitespace, the right half of Python `str.strip`. -/
def rstripChars : List Char → List Char
  | [] => []
  | c :: cs =>
    if (rstripChars cs).isEmpty ∧ pyIsSpace c then [] else c :: rstripChars cs

/-- Python `s.lower().strip()` on the character list of `s`. -/
def pyLowerStrip (l : List Char) : List Char :=
  rstripChars ((l.map pyLowerChar).dropWhile pyIsSpace)

/-- Python `s.lower().strip()` as a string-to-string function. -/
def lowerStrip (s : String) : String :=
  String.mk (pyLowerStrip s.toList)

/-- The "today" sentinel test of `DateParser.parse_string_to_date`:
`date.lower().strip() in ("today", "📅 today")`. -/
def isTodaySentinel (s : String) : Bool :=
  lowerStrip s == "today" || lowerStrip s == "📅 today"

/-- One-digit field alternative `[1-9]` of the `_strptime` day and month
regular expressions. -/
def parse1Digit (l : List Char) : Option (Nat × List Char) :=
  match l with
  | c :: rest =>
    if isDigitChar c = true ∧ 1 ≤ digitVal c then some (digitVal c, rest) else none
  | [] => none

/-- The `%d` field of `_strptime`: regular expression
`3[01]|[12]\d|0[1-9]|[1-9]`, i.e. a two-digit value in `1..31` or a
one-digit value in `1..9` (the two-digit alternatives are tried first;
committing to them is equivalent because the following literal is a dot). -/
def parseDayField (l : List Char) : Option (Nat × List Char) :=
  match l with
  | c1 :: c2 :: rest =>
    if isDigitChar c1 = true ∧ isDigitChar c2 = true
        ∧ 1 ≤ digitVal c1 * 10 + digitVal c2 ∧ digitVal c1 * 10 + digitVal c2 ≤ 31 then
      some (digitVal c1 * 10 + digitVal c2, rest)
    else parse1Digit (c1 :: c2 :: rest)
  | l => parse1Digit l

/-- The `%m` field of `_strptime`: regular expression
`1[0-2]|0[1-9]|[1-9]`, i.e. a two-digit value in `1..12` or a one-digit
value in `1..9`. -/
def parseMonthField (l : List Char) : Option (Nat × List Char) :=
  match l with
  | c1 :: c2 :: rest =>
    if isDigitChar c1 = true ∧ isDigitChar c2 = true
        ∧ 1 ≤ digitVal c1 * 10 + digitVal c2 ∧ digitVal c1 * 10 + digitVal c2 ≤ 12 then
      some (digitVal c1 * 10 + digitVal c2, rest)
    else parse1Digit (c1 :: c2 :: rest)
  | l => parse1Digit l

/-- The `%Y` field of `_strptime`: exactly four digits. -/
def parseYearField (l : List Char) : Option (Nat × List Char) :=
  match l with
  | c1 :: c2 :: c3 :: c4 :: rest =>
    if isDigitChar c1 = true ∧ isDigitChar c2 = true
        ∧ isDigitChar c3 = true ∧ isDigitChar c4 = true then
      some (digitVal c1 * 1000 + digitVal c2 * 100 + digitVal c3 * 10 + digitVal c4, rest)
    else none
  | _ => none

/-- Literal `.` of the format string. -/
def expectDot (l : List Char) : Option (List Char) :=
  match l with
  | '.' :: rest => some rest
  | _ => none

/-- Model of `datetime.strptime(s, "%d.%m.%Y")`: match the day, dot, month,
dot and year fields against the whole input, then build the date through the
validating `datetime.date` constructor; `none` models the raised
`ValueError`. -/
def strptimeDMY (l : List Char) : Option Date :=
  match parseDayField l with
  | none => none
  | some (d, r1) =>
    match expectDot r1 with
    | none => none
    | some r2 =>
      match parseMonthField r2 with
      | none => none
      | some (m, r3) =>
        match expectDot r3 with
        | none => none
        | some r4 =>
          match parseYearField r4 with
          | none => none
          | some (y, r5) =>
            if r5.isEmpty ∧ validDMY d m y = true then some (Date.mk d m y) else none

/-- Model of `DateParser.parse_string_to_date`: the "today" sentinel check on
the lowered, stripped input, otherwise `strptime` on the raw input. The
parameter `today` stands for `datetime.today()`; `none` models the raised
exception. -/
def parse_string_to_date (today : Date) (s : String) : Option Date :=
  if isTodaySentinel s then some today else strptimeDMY s.toList

/-- Two-digit zero-padded decimal rendering (`%d`, `%m`). -/
def pad2 (n : Nat) : List Char := [digitChar (n / 10), digitChar (n % 10)]

/-- Four-digit zero-padded decimal rendering (`%Y`, zero-padded to four
digits per the documented format table). -/
def pad4 (n : Nat) : List Char :=
  [digitChar (n / 1000), digitChar (n / 100 % 10), digitChar (n / 10 % 10), digitChar (n % 10)]

/-- Model of `DateParser.parse_date_to_string`: `date.strftime('%d.%m.%Y')`. -/
def parse_date_to_string (dt : Date) : String :=
  String.mk (pad2 dt.day ++ '.' :: pad2 dt.month ++ '.' :: pad4 dt.year)

/-- Claim-side predicate, stated from the spec's words: the input is exactly
the zero-padded pattern `DD.MM.YYYY` (two-digit day, two-digit month,
four-digit year) denoting a valid calendar date. -/
def specStrictDDMMYYYY (s : String) : Bool :=
  match s.toList with
  | [d1, d2, '.', m1, m2, '.', y1, y2, y3, y4] =>
    isDigitChar d1 && isDigitChar d2 && isDigitChar m1 && isDigitChar m2 &&
    isDigitChar y1 && isDigitChar y2 && isDigitChar y3 && isDigitChar y4 &&
    validDMY (digitVal d1 * 10 + digitVal d2) (digitVal m1 * 10 + digitVal m2)
      (digitVal y1 * 1000 + digitVal y2 * 100 + digitVal y3 * 10 + digitVal y4)
  | _ => false

/-- Split a character list at every dot, keeping empty segments, so that a
string has shape `D.M.Y` exactly when the split yields three segments. -/
def splitDots : List Char → List (List Char)
  | [] => [[]]
  | c :: t =>
    if c = '.' then [] :: splitDots t
    else
      match splitDots t with
      | a :: r => (c :: a) :: r
      | [] => [[c]]

/-- Numeric value of a digit-character list, most significant first. -/
def natOfDigits (l : List Char) : Nat :=
  List.foldl (fun a c => a * 10 + digitVal c) 0 l

/-- Spec-side predicate for the amended C5: the lenient `D.M.YYYY` shape
actually accepted by the `%d.%m.%Y` directives — a one- or two-digit day,
a dot, a one- or two-digit month, a dot, exactly four digits of year, the
whole denoting a valid calendar date (zero padding not required). -/
def lenientDMYShape (s : String) : Bool :=
  match splitDots s.toList with
  | [ds, ms, ys] =>
    decide (1 ≤ ds.length) && decide (ds.length ≤ 2) && ds.all isDigitChar &&
    decide (1 ≤ ms.length) && decide (ms.length ≤ 2) && ms.all isDigitChar &&
    decide (ys.length = 4) && ys.all isDigitChar &&
    validDMY (natOfDigits ds) (natOfDigits ms) (natOfDigits ys)
  | _ => false

/-! Helper lemmas about characters and the date codec. -/

theorem isDigitChar_bounds {c : Char} (h : isDigitChar c = true) :
    48 ≤ c.toNat ∧ c.toNat ≤ 57 := by
  simpa [isDigitChar] using h

theorem digit_mem {c : Char} (h : isDigitChar c = true) :
    c ∈ ['0', '1', '2', '3', '4', '5', '6', '7', '8', '9'] := by
  obtain ⟨h1, h2⟩ := isDigitChar_bounds h
  have hc : c.toNat = 48 ∨ c.toNat = 49 ∨ c.toNat = 50 ∨ c.toNat = 51 ∨ c.toNat = 52 ∨
      c.toNat = 53 ∨ c.toNat = 54 ∨ c.toNat = 55 ∨ c.toNat = 56 ∨ c.toNat = 57 := by omega
  rw [← Char.ofNat_toNat c]
  rcases hc with e | e | e | e | e | e | e | e | e | e <;> rw [e] <;> decide

theorem digitVal_le_nine {c : Char} (h : isDigitChar c = true) : digitVal c ≤ 9 := by
  have m := digit_mem h
  fin_cases m <;> decide

theorem digitChar_digitVal {c : Char} (h : isDigitChar c = true) :
    digitChar (digitVal c) = c := by
  have m := digit_mem h
  fin_cases m <;> decide

theorem digit_not_dot {c : Char} (h : isDigitChar c = true) : ¬ c = '.' := by
  have m := digit_mem h
  fin_cases m <;> decide

theorem pyLowerChar_digit {c : Char} (h : isDigitChar c = true) : pyLowerChar c = c := by
  have m := digit_mem h
  fin_cases m <;> decide

theorem pyIsSpace_digit {c : Char} (h : isDigitChar c = true) : pyIsSpace c = false := by
  have m := digit_mem h
  fin_cases m <;> decide

theorem rstripChars_cons_of_not_space {c : Char} (h : pyIsSpace c = false) (l : List Char) :
    rstripChars (c :: l) = c :: rstripChars l := by
  simp only [rstripChars]
  rw [if_neg]
  rintro ⟨-, hsp⟩
  rw [h] at hsp
  cases hsp

theorem digit_ne_t {c : Char} (h : isDigitChar c = true) : ¬ c = 't' := by
  have m := digit_mem h
  fin_cases m <;> decide

theorem digit_ne_calendar_emoji {c : Char} (h : isDigitChar c = true) : ¬ c = '📅' := by
  have m := digit_mem h
  fin_cases m <;> decide

/-- A string whose first character is a digit is never the "today" sentinel. -/
theorem isTodaySentinel_digit_head {c : Char} {l : List Char} (h : isDigitChar c = true) :
    isTodaySentinel (String.mk (c :: l)) = false := by
  have hlow : lowerStrip (String.mk (c :: l)) =
      String.mk (c :: rstripChars (l.map pyLowerChar)) := by
    unfold lowerStrip pyLowerStrip
    have e : String.toList (String.mk (c :: l)) = c :: l := rfl
    rw [e]
    simp only [List.map_cons, pyLowerChar_digit h]
    rw [List.dropWhile_cons_of_neg (by simp [pyIsSpace_digit h])]
    rw [rstripChars_cons_of_not_space (pyIsSpace_digit h)]
  unfold isTodaySentinel
  rw [hlow]
  refine Bool.or_eq_false_iff.mpr ⟨?_, ?_⟩
  · refine beq_eq_false_iff_ne.mpr ?_
    intro e
    have e2 : c :: rstripChars (l.map pyLowerChar) = ['t', 'o', 'd', 'a', 'y'] :=
      congrArg String.data e
    injection e2 with hc htl
    exact digit_ne_t h hc
  · refine beq_eq_false_iff_ne.mpr ?_
    intro e
    have e2 : c :: rstripChars (l.map pyLowerChar) = ['📅', ' ', 't', 'o', 'd', 'a', 'y'] :=
      congrArg String.data e
    injection e2 with hc htl
    exact digit_ne_calendar_emoji h hc

theorem daysInMonth_le_31 (m y : Nat) : daysInMonth m y ≤ 31 := by
  unfold daysInMonth
  split
  · split <;> omega
  · split <;> omega

theorem validDMY_facts {d m y : Nat} (h : validDMY d m y = true) :
    1 ≤ d ∧ d ≤ 31 ∧ 1 ≤ m ∧ m ≤ 12 ∧ 1 ≤ y ∧ y ≤ 9999 := by
  have hle := daysInMonth_le_31 m y
  simp only [validDMY, Bool.and_eq_true, decide_eq_true_eq] at h
  omega

/-! Inversion lemmas for the `strptime` field matchers. -/

theorem parse1Digit_some {l : List Char} {v : Nat} {r : List Char}
    (h : parse1Digit l = some (v, r)) :
    ∃ c, l = c :: r ∧ isDigitChar c = true ∧ 1 ≤ digitVal c ∧ v = digitVal c := by
  unfold parse1Digit at h
  split at h
  case h_1 c rest =>
    split_ifs at h with hc
    obtain ⟨e1, e2⟩ := Prod.mk.injEq .. ▸ Option.some.injEq .. ▸ h
    exact ⟨c, by rw [← e2], hc.1, hc.2, e1.symm⟩
  case h_2 => cases h

theorem parseDayField_some {l : List Char} {v : Nat} {r : List Char}
    (h : parseDayField l = some (v, r)) :
    (∃ c1 c2, l = c1 :: c2 :: r ∧ isDigitChar c1 = true ∧ isDigitChar c2 = true ∧
      v = digitVal c1 * 10 + digitVal c2) ∨
    (∃ c, l = c :: r ∧ isDigitChar c = true ∧ 1 ≤ digitVal c ∧ v = digitVal c) := by
  unfold parseDayField at h
  split at h
  case h_1 c1 c2 rest =>
    split_ifs at h with hc
    · obtain ⟨e1, e2⟩ := Prod.mk.injEq .. ▸ Option.some.injEq .. ▸ h
      exact Or.inl ⟨c1, c2, by rw [← e2], hc.1, hc.2.1, e1.symm⟩
    · exact Or.inr (parse1Digit_some h)
  case h_2 => exact Or.inr (parse1Digit_some h)

theorem parseMonthField_some {l : List Char} {v : Nat} {r : List Char}
    (h : parseMonthField l = some (v, r)) :
    (∃ c1 c2, l = c1 :: c2 :: r ∧ isDigitChar c1 = true ∧ isDigitChar c2 = true ∧
      v = digitVal c1 * 10 + digitVal c2) ∨
    (∃ c, l = c :: r ∧ isDigitChar c = true ∧ 1 ≤ digitVal c ∧ v = digitVal c) := by
  unfold parseMonthField at h
  split at h
  case h_1 c1 c2 rest =>
    split_ifs at h with hc
    · obtain ⟨e1, e2⟩ := Prod.mk.injEq .. ▸ Option.some.injEq .. ▸ h
      exact Or.inl ⟨c1, c2, by rw [← e2], hc.1, hc.2.1, e1.symm⟩
    · exact Or.inr (parse1Digit_some h)
  case h_2 => exact Or.inr (parse1Digit_some h)

theorem parseYearField_some {l : List Char} {v : Nat} {r : List Char}
    (h : parseYearField l = some (v, r)) :
    ∃ c1 c2 c3 c4, l = c1 :: c2 :: c3 :: c4 :: r ∧
      isDigitChar c1 = true ∧ isDigitChar c2 = true ∧
      isDigitChar c3 = true ∧ isDigitChar c4 = true ∧
      v = digitVal c1 * 1000 + digitVal c2 * 100 + digitVal c3 * 10 + digitVal c4 := by
  unfold parseYearField at h
  split at h
  case h_1 c1 c2 c3 c4 rest =>
    split_ifs at h with hc
    obtain ⟨e1, e2⟩ := Prod.mk.injEq .. ▸ Option.some.injEq .. ▸ h
    exact ⟨c1, c2, c3, c4, by rw [← e2], hc.1, hc.2.1, hc.2.2.1, hc.2.2.2, e1.symm⟩
  case h_2 => cases h

theorem expectDot_some {l r : List Char} (h : expectDot l = some r) : l = '.' :: r := by
  unfold expectDot at h
  split at h
  case h_1 rest => rw [Option.some.injEq] at h; rw [h]
  case h_2 => cases h

/-! Lemmas about `splitDots`. -/

theorem splitDots_append {pre : List Char} (rest : List Char)
    (h : ∀ c ∈ pre, ¬ c = '.') :
    splitDots (pre ++ '.' :: rest) = pre :: splitDots rest := by
  induction pre with
  | nil =>
    simp only [List.nil_append]
    rw [splitDots, if_pos rfl]
  | cons c p ih =>
    have hc : ¬ c = '.' := h c (List.mem_cons_self ..)
    have ih' := ih (fun x hx => h x (List.mem_cons_of_mem _ hx))
    simp only [List.cons_append]
    rw [splitDots, if_neg hc, ih']

theorem splitDots_ne_nil (l : List Char) : splitDots l ≠ [] := by
  cases l with
  | nil => simp [splitDots]
  | cons c t =>
    rw [splitDots]
    split
    · simp
    · split <;> simp

theorem splitDots_nodot {l : List Char} (h : ∀ c ∈ l, ¬ c = '.') :
    splitDots l = [l] := by
  induction l with
  | nil => rfl
  | cons c t ih =>
    have hc : ¬ c = '.' := h c (List.mem_cons_self ..)
    have ih' := ih (fun x hx => h x (List.mem_cons_of_mem _ hx))
    rw [splitDots, if_neg hc, ih']

/-- Strings decomposing into digit segments day-dot-month-dot-year with the
claimed lengths and a valid value triple satisfy the lenient shape. -/
theorem lenient_of_parts {s : String} (ds ms ys : List Char)
    (hs : s.toList = ds ++ '.' :: (ms ++ '.' :: ys))
    (hd : ∀ c ∈ ds, isDigitChar c = true) (hm : ∀ c ∈ ms, isDigitChar c = true)
    (hy : ∀ c ∈ ys, isDigitChar c = true)
    (hdl : 1 ≤ ds.length) (hdl2 : ds.length ≤ 2)
    (hml : 1 ≤ ms.length) (hml2 : ms.length ≤ 2)
    (hyl : ys.length = 4)
    (hv : validDMY (natOfDigits ds) (natOfDigits ms) (natOfDigits ys) = true) :
    lenientDMYShape s = true := by
  unfold lenientDMYShape
  rw [hs, splitDots_append _ (fun c hc => digit_not_dot (hd c hc)),
      splitDots_append _ (fun c hc => digit_not_dot (hm c hc)),
      splitDots_nodot (fun c hc => digit_not_dot (hy c hc))]
  simp only [Bool.and_eq_true, decide_eq_true_eq, List.all_eq_true]
  exact ⟨⟨⟨⟨⟨⟨⟨⟨hdl, hdl2⟩, hd⟩, hml⟩, hml2⟩, hm⟩, hyl⟩, hy⟩, hv⟩

/-- Soundness of the `strptime` model: every accepted input has the lenient
day.month.year shape. -/
theorem strptimeDMY_lenient {s : String} {dt : Date}
    (h : strptimeDMY s.toList = some dt) : lenientDMYShape s = true := by
  unfold strptimeDMY at h
  cases e1 : parseDayField s.toList with
  | none => rw [e1] at h; cases h
  | some p1 =>
    obtain ⟨d, r1⟩ := p1
    rw [e1] at h
    dsimp only at h
    cases e2 : expectDot r1 with
    | none => rw [e2] at h; cases h
    | some r2 =>
      rw [e2] at h
      dsimp only at h
      cases e3 : parseMonthField r2 with
      | none => rw [e3] at h; cases h
      | some p2 =>
        obtain ⟨m, r3⟩ := p2
        rw [e3] at h
        dsimp only at h
        cases e4 : expectDot r3 with
        | none => rw [e4] at h; cases h
        | some r4 =>
          rw [e4] at h
          dsimp only at h
          cases e5 : parseYearField r4 with
          | none => rw [e5] at h; cases h
          | some p3 =>
            obtain ⟨y, r5⟩ := p3
            rw [e5] at h
            dsimp only at h
            split_ifs at h with hcond
            obtain ⟨hemp, hval⟩ := hcond
            have hr5 : r5 = [] := by simpa using hemp
            obtain ⟨y1, y2, y3, y4, hr4, hy1, hy2, hy3, hy4, hyv⟩ := parseYearField_some e5
            have hr1 : r1 = '.' :: r2 := expectDot_some e2
            have hr3 : r3 = '.' :: r4 := expectDot_some e4
            subst hr5 hr1 hr3 hr4
            rcases parseDayField_some e1 with ⟨c1, c2, hl, hc1, hc2, hdv⟩ |
                ⟨c1, hl, hc1, hd1, hdv⟩ <;>
              rcases parseMonthField_some e3 with ⟨b1, b2, hmm, hb1, hb2, hmv⟩ |
                ⟨b1, hmm, hb1, hm1, hmv⟩
            · refine lenient_of_parts [c1, c2] [b1, b2] [y1, y2, y3, y4] ?_ ?_ ?_ ?_
                (by simp) (by simp) (by simp) (by simp) (by simp) ?_
              · rw [hl, hmm]; rfl
              · intro c hc; fin_cases hc; exacts [hc1, hc2]
              · intro c hc; fin_cases hc; exacts [hb1, hb2]
              · intro c hc; fin_cases hc; exacts [hy1, hy2, hy3, hy4]
              · have ed : natOfDigits [c1, c2] = d := by simp [natOfDigits]; omega
                have em : natOfDigits [b1, b2] = m := by simp [natOfDigits]; omega
                have ey : natOfDigits [y1, y2, y3, y4] = y := by simp [natOfDigits]; omega
                rw [ed, em, ey]; exact hval
            · refine lenient_of_parts [c1, c2] [b1] [y1, y2, y3, y4] ?_ ?_ ?_ ?_
                (by simp) (by simp) (by simp) (by simp) (by simp) ?_
              · rw [hl, hmm]; rfl
              · intro c hc; fin_cases hc; exacts [hc1, hc2]
              · intro c hc; fin_cases hc; exact hb1
              · intro c hc; fin_cases hc; exacts [hy1, hy2, hy3, hy4]
              · have ed : natOfDigits [c1, c2] = d := by simp [natOfDigits]; omega
                have em : natOfDigits [b1] = m := by simp [natOfDigits]; omega
                have ey : natOfDigits [y1, y2, y3, y4] = y := by simp [natOfDigits]; omega
                rw [ed, em, ey]; exact hval
            · refine lenient_of_parts [c1] [b1, b2] [y1, y2, y3, y4] ?_ ?_ ?_ ?_
                (by simp) (by simp) (by simp) (by simp) (by simp) ?_
              · rw [hl, hmm]; rfl
              · intro c hc; fin_cases hc; exact hc1
              · intro c hc; fin_cases hc; exacts [hb1, hb2]
              · intro c hc; fin_cases hc; exacts [hy1, hy2, hy3, hy4]
              · have ed : natOfDigits [c1] = d := by simp [natOfDigits]; omega
                have em : natOfDigits [b1, b2] = m := by simp [natOfDigits]; omega
                have ey : natOfDigits [y1, y2, y3, y4] = y := by simp [natOfDigits]; omega
                rw [ed, em, ey]; exact hval
            · refine lenient_of_parts [c1] [b1] [y1, y2, y3, y4] ?_ ?_ ?_ ?_
                (by simp) (by simp) (by simp) (by simp) (by simp) ?_
              · rw [hl, hmm]; rfl
              · intro c hc; fin_cases hc; exact hc1
              · intro c hc; fin_cases hc; exact hb1
              · intro c hc; fin_cases hc; exacts [hy1, hy2, hy3, hy4]
              · have ed : natOfDigits [c1] = d := by simp [natOfDigits]; omega
                have em : natOfDigits [b1] = m := by simp [natOfDigits]; omega
                have ey : natOfDigits [y1, y2, y3, y4] = y := by simp [natOfDigits]; omega
                rw [ed, em, ey]; exact hval

/-- The C5 claim fails as stated: the input "5.6.2005" is neither a "today"
sentinel spelling nor the zero-padded `DD.MM.YYYY` pattern, yet
`parse_string_to_date` accepts it (Python `strptime` does not require
zero padding for `%d` and `%m`). -/
theorem C5_counterexample :
    isTodaySentinel "5.6.2005" = false ∧ specStrictDDMMYYYY "5.6.2005" = false ∧
    parse_string_to_date ⟨12, 10, 2026⟩ "5.6.2005" = some ⟨5, 6, 2005⟩ := by
  decide

/-- C5, amended: for every input string that is neither a recognized "today"
sentinel spelling nor of the lenient `D(D).M(M).YYYY` shape (one- or
two-digit day and month, four-digit year, denoting a valid calendar date —
zero padding is not required), date parsing fails; in particular
"2005-06-25", "32.13.2005" and "" all fail, while the non-zero-padded
"5.6.2005" succeeds. -/
theorem C5_nonlenient_rejected :
    (∀ (t : Date) (s : String), isTodaySentinel s = false → lenientDMYShape s = false →
      parse_string_to_date t s = none) ∧
    (∀ t : Date, parse_string_to_date t "2005-06-25" = none ∧
      parse_string_to_date t "32.13.2005" = none ∧ parse_string_to_date t "" = none ∧
      parse_string_to_date t "5.6.2005" = some ⟨5, 6, 2005⟩) := by
  constructor
  · intro t s hsent hlen
    unfold parse_string_to_date
    rw [hsent]
    simp only [Bool.false_eq_true, if_false]
    cases e : strptimeDMY s.toList with
    | none => rfl
    | some dt =>
      rw [strptimeDMY_lenient e] at hlen
      cases hlen
  · intro t
    exact ⟨rfl, rfl, rfl, rfl⟩

/-- Witness for C5: the amended theorem applied to the concrete rejected
input "2005-06-25". -/
theorem C5_nonlenient_rejected_witness :
    isTodaySentinel "2005-06-25" = false ∧ lenientDMYShape "2005-06-25" = false ∧
    parse_string_to_date ⟨12, 10, 2026⟩ "2005-06-25" = none :=
  ⟨by decide, by decide,
    C5_nonlenient_rejected.1 ⟨12, 10, 2026⟩ "2005-06-25" (by decide) (by decide)⟩

/-! Forward evaluation lemmas for the round-trip (C6). -/

theorem parseDayField_two {c1 c2 : Char} (rest : List Char)
    (h1 : isDigitChar c1 = true) (h2 : isDigitChar c2 = true)
    (hlo : 1 ≤ digitVal c1 * 10 + digitVal c2) (hhi : digitVal c1 * 10 + digitVal c2 ≤ 31) :
    parseDayField (c1 :: c2 :: rest) = some (digitVal c1 * 10 + digitVal c2, rest) := by
  unfold parseDayField
  dsimp only
  rw [if_pos ⟨h1, h2, hlo, hhi⟩]

theorem parseMonthField_two {c1 c2 : Char} (rest : List Char)
    (h1 : isDigitChar c1 = true) (h2 : isDigitChar c2 = true)
    (hlo : 1 ≤ digitVal c1 * 10 + digitVal c2) (hhi : digitVal c1 * 10 + digitVal c2 ≤ 12) :
    parseMonthField (c1 :: c2 :: rest) = some (digitVal c1 * 10 + digitVal c2, rest) := by
  unfold parseMonthField
  dsimp only
  rw [if_pos ⟨h1, h2, hlo, hhi⟩]

theorem parseYearField_four {c1 c2 c3 c4 : Char} (rest : List Char)
    (h1 : isDigitChar c1 = true) (h2 : isDigitChar c2 = true)
    (h3 : isDigitChar c3 = true) (h4 : isDigitChar c4 = true) :
    parseYearField (c1 :: c2 :: c3 :: c4 :: rest) =
      some (digitVal c1 * 1000 + digitVal c2 * 100 + digitVal c3 * 10 + digitVal c4, rest) := by
  unfold parseYearField
  dsimp only
  rw [if_pos ⟨h1, h2, h3, h4⟩]

/-- C6: for every string in the explicit zero-padded `DD.MM.YYYY` form
denoting a valid calendar date, parsing succeeds and formatting the result
reproduces the input exactly. -/
theorem C6_format_parse_round_trip (t : Date) (s : String)
    (h : specStrictDDMMYYYY s = true) :
    ∃ dt, parse_string_to_date t s = some dt ∧ parse_date_to_string dt = s := by
  unfold specStrictDDMMYYYY at h
  split at h
  case h_2 => cases h
  case h_1 d1 d2 m1 m2 y1 y2 y3 y4 hsl =>
    simp only [Bool.and_eq_true] at h
    obtain ⟨⟨⟨⟨⟨⟨⟨⟨hd1, hd2⟩, hm1⟩, hm2⟩, hy1⟩, hy2⟩, hy3⟩, hy4⟩, hval⟩ := h
    have d1le := digitVal_le_nine hd1
    have d2le := digitVal_le_nine hd2
    have m1le := digitVal_le_nine hm1
    have m2le := digitVal_le_nine hm2
    have y1le := digitVal_le_nine hy1
    have y2le := digitVal_le_nine hy2
    have y3le := digitVal_le_nine hy3
    have y4le := digitVal_le_nine hy4
    obtain ⟨hdlo, hdhi, hmlo, hmhi, hylo, hyhi⟩ := validDMY_facts hval
    have hs : s = String.mk [d1, d2, '.', m1, m2, '.', y1, y2, y3, y4] :=
      String.ext hsl
    have hsent : isTodaySentinel s = false := by
      rw [hs]; exact isTodaySentinel_digit_head hd1
    refine ⟨⟨digitVal d1 * 10 + digitVal d2, digitVal m1 * 10 + digitVal m2,
      digitVal y1 * 1000 + digitVal y2 * 100 + digitVal y3 * 10 + digitVal y4⟩, ?_, ?_⟩
    · unfold parse_string_to_date
      rw [hsent]
      simp only [Bool.false_eq_true, if_false]
      rw [hsl]
      unfold strptimeDMY
      rw [parseDayField_two _ hd1 hd2 hdlo hdhi]
      dsimp only
      rw [show expectDot ('.' :: [m1, m2, '.', y1, y2, y3, y4]) =
        some [m1, m2, '.', y1, y2, y3, y4] from rfl]
      dsimp only
      rw [parseMonthField_two _ hm1 hm2 hmlo hmhi]
      dsimp only
      rw [show expectDot ('.' :: [y1, y2, y3, y4]) = some [y1, y2, y3, y4] from rfl]
      dsimp only
      rw [parseYearField_four _ hy1 hy2 hy3 hy4]
      dsimp only
      rw [if_pos ⟨rfl, hval⟩]
    · rw [hs]
      unfold parse_date_to_string pad2 pad4
      refine congrArg String.mk ?_
      have e1 : (digitVal d1 * 10 + digitVal d2) / 10 = digitVal d1 := by omega
      have e2 : (digitVal d1 * 10 + digitVal d2) % 10 = digitVal d2 := by omega
      have e3 : (digitVal m1 * 10 + digitVal m2) / 10 = digitVal m1 := by omega
      have e4 : (digitVal m1 * 10 + digitVal m2) % 10 = digitVal m2 := by omega
      have f1 : (digitVal y1 * 1000 + digitVal y2 * 100 + digitVal y3 * 10 + digitVal y4)
          / 1000 = digitVal y1 := by omega
      have f2 : (digitVal y1 * 1000 + digitVal y2 * 100 + digitVal y3 * 10 + digitVal y4)
          / 100 % 10 = digitVal y2 := by omega
      have f3 : (digitVal y1 * 1000 + digitVal y2 * 100 + digitVal y3 * 10 + digitVal y4)
          / 10 % 10 = digitVal y3 := by omega
      have f4 : (digitVal y1 * 1000 + digitVal y2 * 100 + digitVal y3 * 10 + digitVal y4)
          % 10 = digitVal y4 := by omega
      rw [e1, e2, e3, e4, f1, f2, f3, f4,
        digitChar_digitVal hd1, digitChar_digitVal hd2, digitChar_digitVal hm1,
        digitChar_digitVal hm2, digitChar_digitVal hy1, digitChar_digitVal hy2,
        digitChar_digitVal hy3, digitChar_digitVal hy4]
      rfl

/-- Witness for C6: the round trip at the concrete input "25.06.2005". -/
theorem C6_format_parse_round_trip_witness :
    specStrictDDMMYYYY "25.06.2005" = true ∧
    ∃ dt, parse_string_to_date ⟨1, 1, 2020⟩ "25.06.2005" = some dt ∧
      parse_date_to_string dt = "25.06.2005" :=
  ⟨by decide, C6_format_parse_round_trip ⟨1, 1, 2020⟩ "25.06.2005" (by decide)⟩

/-- Speaker entity of `domain/speaker.py` (the file itself is not among the
provided sources; the shape is fixed by its construction sites
`Speaker(name)` and `Speaker(item["name"], item.get("speaker_image_id"))`
and by the spec's data model: a name plus an optional opaque image
reference). -/
structure Speaker where
  name : String
  speaker_image_id : Option String
deriving DecidableEq, Repr

/-- Phrase entity of `domain/phrase.py`: created with the speaker unset. -/
structure Phrase where
  speaker : Option Speaker
  text : String
  context_text : Option String
deriving DecidableEq, Repr

/-- Quote aggregate of `domain/quote.py`. -/
structure Quote where
  phrases : List Phrase
  date : Date
deriving DecidableEq, Repr

/-- Left-to-right evaluation of the generator expression
`phrase.speaker.name for phrase in quote.phrases`: the name list, or `none`
when some phrase's speaker is still unset (the attribute access would
raise). -/
def speakerNames : List Phrase → Option (List String)
  | [] => some []
  | p :: ps =>
    match p.speaker with
    | none => none
    | some sp =>
      match speakerNames ps with
      | none => none
      | some ns => some (sp.name :: ns)

/-- Model of `QuoteTextGenerator.get_unique_names`: the set
`{phrase.speaker.name for phrase in quote.phrases}`. A Python set enumerates
deterministically for a fixed set within one run; the model fixes the
enumeration to first-occurrence order. -/
def get_unique_names (q : Quote) : Option (List String) :=
  (speakerNames q.phrases).map List.dedup

/-- Model of `QuoteTextGenerator.generate_tags`:
`" ".join(f"#{speaker}" for speaker in get_unique_names(quote))`. -/
def generate_tags (q : Quote) : Option String :=
  (get_unique_names q).map
    (fun names => String.intercalate " " (names.map (fun n => "#" ++ n)))

/-- The dialogue body `"".join(f"{phrase.speaker.name}: {phrase.text}\n" ...)`
of `QuoteTextGenerator.generate_quote`. -/
def dialogueLines : List Phrase → Option String
  | [] => some ""
  | p :: ps =>
    match p.speaker with
    | none => none
    | some sp =>
      (dialogueLines ps).map (fun rest => sp.name ++ ": " ++ p.text ++ "\n" ++ rest)

/-- Model of `QuoteTextGenerator.generate_quote`: a single phrase renders as
its bare text, several phrases as dialogue lines plus a blank line. -/
def generate_quote (q : Quote) : Option String :=
  match q.phrases with
  | [p] => some p.text
  | ps => (dialogueLines ps).map (fun joined => joined ++ "\n")

/-- Model of `QuoteTextGenerator.generate_quote_with_name`. -/
def generate_quote_with_name (q : Quote) : Option String :=
  match q.phrases with
  | [p] =>
    match p.speaker with
    | none => none
    | some sp => some ("\"" ++ p.text ++ "\" - " ++ sp.name ++ ", ")
  | _ => generate_quote q

/-- Model of `QuoteTextGenerator.generate_quote_with_date`. -/
def generate_quote_with_date (q : Quote) : Option String :=
  (generate_quote_with_name q).map (fun r => r ++ parse_date_to_string q.date ++ "\n")

/-- Model of `QuoteTextGenerator.generate_quote_with_tags`. -/
def generate_quote_with_tags (q : Quote) : Option String :=
  match generate_quote_with_date q, generate_tags q with
  | some a, some b => some (a ++ "\n" ++ b)
  | _, _ => none

theorem speakerNames_some {ps : List Phrase}
    (h : ∀ p ∈ ps, p.speaker.isSome = true) :
    ∃ ns, speakerNames ps = some ns ∧
      ∀ n, n ∈ ns ↔ ∃ p ∈ ps, ∃ sp, p.speaker = some sp ∧ sp.name = n := by
  induction ps with
  | nil => exact ⟨[], rfl, by simp⟩
  | cons p ps ih =>
    have hp := h p (List.mem_cons_self ..)
    obtain ⟨sp, hsp⟩ := Option.isSome_iff_exists.mp hp
    obtain ⟨ns, hns, hmem⟩ := ih (fun x hx => h x (List.mem_cons_of_mem _ hx))
    refine ⟨sp.name :: ns, ?_, ?_⟩
    · rw [speakerNames, hsp, hns]
    · intro n
      simp only [List.mem_cons]
      constructor
      · rintro (rfl | hn)
        · exact ⟨p, Or.inl rfl, sp, hsp, rfl⟩
        · obtain ⟨p', hp', sp', hsp', hname⟩ := (hmem n).mp hn
          exact ⟨p', Or.inr hp', sp', hsp', hname⟩
      · rintro ⟨p', hp', sp', hsp', rfl⟩
        rcases hp' with rfl | hp''
        · rw [hsp] at hsp'
          cases hsp'
          exact Or.inl rfl
        · exact Or.inr ((hmem sp'.name).mpr ⟨p', hp'', sp', hsp', rfl⟩)

/-- C7: for every quote whose phrases all have a resolved speaker, tag
generation produces the space-separated `#name` tokens of a duplicate-free
name list containing exactly the speaker names of the quote (repeated calls
agree because `generate_tags` is a function of the quote); a two-phrase
Bob/Alice quote yields "#Bob #Alice" or "#Alice #Bob". -/
theorem C7_unique_speaker_tags :
    (∀ q : Quote, (∀ p ∈ q.phrases, p.speaker.isSome = true) →
      ∃ names, get_unique_names q = some names ∧
        generate_tags q =
          some (String.intercalate " " (names.map (fun n => "#" ++ n))) ∧
        names.Nodup ∧
        (∀ n, n ∈ names ↔ ∃ p ∈ q.phrases, ∃ sp, p.speaker = some sp ∧ sp.name = n)) ∧
    (generate_tags
        ⟨[⟨some ⟨"Bob", none⟩, "Hi", none⟩, ⟨some ⟨"Alice", none⟩, "Hey", none⟩],
          ⟨25, 6, 2005⟩⟩ = some "#Bob #Alice" ∨
      generate_tags
        ⟨[⟨some ⟨"Bob", none⟩, "Hi", none⟩, ⟨some ⟨"Alice", none⟩, "Hey", none⟩],
          ⟨25, 6, 2005⟩⟩ = some "#Alice #Bob") := by
  constructor
  · intro q h
    obtain ⟨ns, hns, hmem⟩ := speakerNames_some h
    refine ⟨ns.dedup, ?_, ?_, ns.nodup_dedup, ?_⟩
    · unfold get_unique_names
      rw [hns]
      rfl
    · unfold generate_tags get_unique_names
      rw [hns]
      rfl
    · intro n
      rw [List.mem_dedup]
      exact hmem n
  · exact Or.inl (by decide)

/-- Witness for C7: the universal part applied to the concrete Bob/Alice
quote. -/
theorem C7_unique_speaker_tags_witness :
    ∃ names,
      get_unique_names
        (⟨[⟨some ⟨"Bob", none⟩, "Hi", none⟩, ⟨some ⟨"Alice", none⟩, "Hey", none⟩],
          ⟨25, 6, 2005⟩⟩ : Quote) = some names ∧
      generate_tags
        ⟨[⟨some ⟨"Bob", none⟩, "Hi", none⟩, ⟨some ⟨"Alice", none⟩, "Hey", none⟩],
          ⟨25, 6, 2005⟩⟩ =
        some (String.intercalate " " (names.map (fun n => "#" ++ n))) ∧
      names.Nodup ∧
      (∀ n, n ∈ names ↔
        ∃ p ∈ (⟨[⟨some ⟨"Bob", none⟩, "Hi", none⟩,
          ⟨some ⟨"Alice", none⟩, "Hey", none⟩], ⟨25, 6, 2005⟩⟩ : Quote).phrases,
          ∃ sp, p.speaker = some sp ∧ sp.name = n) :=
  C7_unique_speaker_tags.1
    ⟨[⟨some ⟨"Bob", none⟩, "Hi", none⟩, ⟨some ⟨"Alice", none⟩, "Hey", none⟩],
      ⟨25, 6, 2005⟩⟩ (by decide)

/-- The truthiness test `if speaker.speaker_image_id` of Python: `None` and
the empty string are falsy. -/
def truthyImage : Option String → Bool
  | none => false
  | some s => !(s == "")

/-- The in-place update step of `JsonSpeakerRepository.save_speaker` on the
first stored record with the incoming name: the image is overwritten only
when the incoming one is truthy and differs. -/
def updateExisting (incoming s : Speaker) : Speaker :=
  if truthyImage incoming.speaker_image_id = true ∧
      ¬ s.speaker_image_id = incoming.speaker_image_id then
    { s with speaker_image_id := incoming.speaker_image_id }
  else s

/-- Model of `JsonSpeakerRepository.save_speaker` on the in-memory list:
find the first record with the same name and update it in place, or append
the speaker when no record matches (the subsequent JSON file write mirrors
the list and is outside the store-state model). -/
def save_speaker (sp : Speaker) : List Speaker → List Speaker
  | [] => [sp]
  | s :: rest =>
    if s.name == sp.name then updateExisting sp s :: rest
    else s :: save_speaker sp rest

/-- Model of `JsonSpeakerRepository.get_speaker`: first record with the
given name, if any. -/
def get_speaker (name : String) : List Speaker → Option Speaker
  | [] => none
  | s :: rest => if s.name == name then some s else get_speaker name rest

/-- Model of `JsonSpeakerRepository.get_speakers`. -/
def get_speakers (speakers : List Speaker) : List Speaker := speakers

theorem updateExisting_name (incoming s : Speaker) :
    (updateExisting incoming s).name = s.name := by
  unfold updateExisting
  split <;> rfl

theorem save_speaker_present {sp : Speaker} {l : List Speaker}
    (h : l.any (fun s => s.name == sp.name) = true) :
    (save_speaker sp l).length = l.length ∧
    ∀ n, (save_speaker sp l).countP (fun s => s.name == n) =
      l.countP (fun s => s.name == n) := by
  induction l with
  | nil => cases h
  | cons s rest ih =>
    rw [save_speaker]
    by_cases hs : s.name == sp.name
    · rw [if_pos hs]
      refine ⟨by simp, ?_⟩
      intro n
      simp only [List.countP_cons, updateExisting_name]
    · rw [if_neg hs]
      have h' : rest.any (fun x => x.name == sp.name) = true := by
        rcases List.any_eq_true.mp h with ⟨x, hx, hxe⟩
        rcases List.mem_cons.mp hx with rfl | hx'
        · exact absurd hxe hs
        · exact List.any_eq_true.mpr ⟨x, hx', hxe⟩
      obtain ⟨hlen, hcnt⟩ := ih h'
      refine ⟨by simp [hlen], ?_⟩
      intro n
      simp only [List.countP_cons, hcnt]

theorem save_speaker_absent {sp : Speaker} {l : List Speaker}
    (h : l.any (fun s => s.name == sp.name) = false) :
    save_speaker sp l = l ++ [sp] := by
  induction l with
  | nil => rfl
  | cons s rest ih =>
    simp only [List.any_cons, Bool.or_eq_false_iff] at h
    rw [save_speaker, if_neg (by simp [h.1]), ih h.2]
    rfl

/-- C8: `save_speaker` preserves the store invariant that every name occurs
on at most one record, and saving a speaker whose name is already stored
adds no record: exactly one record with that name remains. -/
theorem C8_save_speaker_preserves_name_uniqueness (sp : Speaker) (l : List Speaker)
    (hinv : ∀ n, l.countP (fun s => s.name == n) ≤ 1) :
    (∀ n, (save_speaker sp l).countP (fun s => s.name == n) ≤ 1) ∧
    (l.countP (fun s => s.name == sp.name) = 1 →
      (save_speaker sp l).countP (fun s => s.name == sp.name) = 1 ∧
      (save_speaker sp l).length = l.length) := by
  cases hany : l.any (fun s => s.name == sp.name) with
  | true =>
    obtain ⟨hlen, hcnt⟩ := save_speaker_present hany
    exact ⟨fun n => (hcnt n).le.trans (hinv n), fun hone => ⟨(hcnt sp.name).trans hone, hlen⟩⟩
  | false =>
    have habs := save_speaker_absent hany
    have hzero : l.countP (fun s => s.name == sp.name) = 0 := by
      rw [List.countP_eq_zero]
      intro s hs hb
      exact absurd (List.any_eq_true.mpr ⟨s, hs, hb⟩) (by rw [hany]; simp)
    constructor
    · intro n
      rw [habs, List.countP_append]
      by_cases hn : (sp.name == n) = true
      · have : l.countP (fun s => s.name == n) = 0 := by
          rw [← (beq_iff_eq.mp hn)]
          exact hzero
        simp [this, List.countP_cons, hn]
      · have : (fun s => s.name == n) sp = false := by
          simpa using hn
        simp only [List.countP_cons, List.countP_nil, this]
        simpa using hinv n
    · intro hone
      rw [hzero] at hone
      cases hone

theorem countP_singleton_le_one (x : Speaker) (n : String) :
    List.countP (fun s => s.name == n) [x] ≤ 1 := by
  simp only [List.countP_cons, List.countP_nil]
  split <;> simp

/-- Witness for C8: the theorem applied to a concrete one-record store that
already contains the incoming name. -/
theorem C8_save_speaker_preserves_name_uniqueness_witness :
    (∀ n, ((save_speaker ⟨"Bob", some "img2"⟩ [⟨"Bob", some "img1"⟩]).countP
      (fun s => s.name == n)) ≤ 1) ∧
    ((List.countP (fun s => s.name == "Bob") [(⟨"Bob", some "img1"⟩ : Speaker)] = 1) →
      (save_speaker ⟨"Bob", some "img2"⟩ [⟨"Bob", some "img1"⟩]).countP
        (fun s => s.name == "Bob") = 1 ∧
      (save_speaker ⟨"Bob", some "img2"⟩ [⟨"Bob", some "img1"⟩]).length =
        [(⟨"Bob", some "img1"⟩ : Speaker)].length) :=
  C8_save_speaker_preserves_name_uniqueness ⟨"Bob", some "img2"⟩ [⟨"Bob", some "img1"⟩]
    (fun n => countP_singleton_le_one _ n)

/-- C10: when the incoming speaker's image reference is absent and a record
with that name is already stored, `save_speaker` changes nothing at all: in
particular the stored record's image reference is untouched (only a truthy,
different image can overwrite it). -/
theorem C10_absent_image_never_clears (sp : Speaker) (l : List Speaker)
    (hpresent : l.any (fun s => s.name == sp.name) = true)
    (himg : sp.speaker_image_id = none) :
    save_speaker sp l = l := by
  induction l with
  | nil => cases hpresent
  | cons s rest ih =>
    rw [save_speaker]
    by_cases hs : s.name == sp.name
    · rw [if_pos hs]
      have : updateExisting sp s = s := by
        unfold updateExisting
        rw [if_neg]
        rintro ⟨ht, -⟩
        rw [himg] at ht
        cases ht
      rw [this]
    · rw [if_neg hs]
      have h' : rest.any (fun x => x.name == sp.name) = true := by
        rcases List.any_eq_true.mp hpresent with ⟨x, hx, hxe⟩
        rcases List.mem_cons.mp hx with rfl | hx'
        · exact absurd hxe hs
        · exact List.any_eq_true.mpr ⟨x, hx', hxe⟩
      rw [ih h']

/-- Witness for C10: a store holding Bob with an image, saved again with an
absent image, is unchanged. -/
theorem C10_absent_image_never_clears_witness :
    save_speaker ⟨"Bob", none⟩ [⟨"Alice", none⟩, ⟨"Bob", some "img1"⟩] =
      [⟨"Alice", none⟩, ⟨"Bob", some "img1"⟩] :=
  C10_absent_image_never_clears ⟨"Bob", none⟩ [⟨"Alice", none⟩, ⟨"Bob", some "img1"⟩]
    (by decide) rfl

/-- Abstract text measurement consulted by the text-fit algorithm: the width
`draw.textlength(text, font)` of a string at a given font size, and the
height `bbox[3] - bbox[1]` of the probe glyph "A" at a given font size. The
algorithm of `fit_text_to_box` is parametric in these PIL measurements. -/
structure TextMeasure where
  textLength : Nat → String → Nat
  lineHeight : Nat → Nat

/-- Split a character list at every character satisfying `p`, keeping empty
segments (the general single-separator split underlying Python `str.split`). -/
def splitPred (p : Char → Bool) : List Char → List (List Char)
  | [] => [[]]
  | c :: t =>
    if p c = true then [] :: splitPred p t
    else
      match splitPred p t with
      | a :: r => (c :: a) :: r
      | [] => [[c]]

/-- Python `para.split()`: split on whitespace runs, dropping empty pieces. -/
def pySplitWords (s : String) : List String :=
  ((splitPred pyIsSpace s.toList).map String.mk).filter (fun w => ¬ w = "")

/-- The greedy word-wrapping inner loop of `fit_text_to_box` for one
paragraph: words are appended to the current line while the measured test
line fits the box width, otherwise the current line is flushed and a new
line starts with the word. -/
def wrapWords (M : TextMeasure) (size maxW : Nat) :
    List String → List String → List String
  | [], cur => if cur.isEmpty then [] else [String.intercalate " " cur]
  | w :: ws, cur =>
    if M.textLength size (String.intercalate " " (cur ++ [w])) ≤ maxW then
      wrapWords M size maxW ws (cur ++ [w])
    else
      (if cur.isEmpty then [] else [String.intercalate " " cur]) ++
        wrapWords M size maxW ws [w]

/-- The wrapped line list of `fit_text_to_box` at one candidate size: wrap
each `"\n"`-separated paragraph, append an empty line after each paragraph,
and pop the trailing empty line. -/
def wrapText (M : TextMeasure) (size : Nat) (text : String) (maxW : Nat) : List String :=
  let paragraphs := (splitPred (fun c => c == '\n') text.toList).map String.mk
  let ls := paragraphs.flatMap
    (fun para => wrapWords M size maxW (pySplitWords para) [] ++ [""])
  if ls.getLast? = some "" then ls.dropLast else ls

/-- The measured block height `int(line_height * len(lines) * 1.2)` of
`fit_text_to_box`; the 1.2 line-spacing factor is modelled as the exact
rational 12/10 with truncating division. -/
def totalHeight (M : TextMeasure) (size lineCount : Nat) : Nat :=
  M.lineHeight size * lineCount * 12 / 10

/-- Failures of the image pipeline that the embedding tracks. -/
inductive RenderErr where
  | fontMissing
  | unboundLocal
  | emptyPhrases
  | emptyLines
  | assetMissing
  | speakerUnset
deriving DecidableEq, Repr

deriving instance DecidableEq for Except

/-- The `while font_size >= min_size` loop of `fit_text_to_box`. Each
iteration re-loads the font from `font_path` (`ImageFont.truetype` with no
fallback — `fontOk = false` models a missing font file and raises), wraps
at the current size, accepts if the block height fits, otherwise shrinks by
the fixed step 2 while the next size still satisfies the loop condition;
when the loop ends the values of the last iteration are returned. -/
def fitLoop (fontOk : Bool) (M : TextMeasure) (text : String) (maxW maxH minSize : Nat)
    (size : Nat) : Except RenderErr (Nat × List String) :=
  if fontOk = false then .error .fontMissing
  else
    let lines := wrapText M size text maxW
    if totalHeight M size lines.length ≤ maxH then .ok (size, lines)
    else if h : minSize + 2 ≤ size then
      fitLoop fontOk M text maxW maxH minSize (size - 2)
    else .ok (size, lines)
termination_by size
decreasing_by omega

/-- Model of `QuoteImageGenerator.fit_text_to_box`: run the shrink loop from
the start size; when the start size is already below the minimum the loop
body never runs and the trailing `return font, lines` raises
`UnboundLocalError`. -/
def fit_text_to_box (fontOk : Bool) (M : TextMeasure) (text : String)
    (maxW maxH startSize minSize : Nat) : Except RenderErr (Nat × List String) :=
  if startSize < minSize then .error .unboundLocal
  else fitLoop fontOk M text maxW maxH minSize startSize

/-- A concrete measurement model: width is font size times character count,
line height is the font size. -/
def M0 : TextMeasure := ⟨fun sz s => sz * s.length, fun sz => sz⟩

theorem totalHeight_pos_count {M : TextMeasure} {sz k maxH : Nat}
    (h : ¬ totalHeight M sz k ≤ maxH) : k ≠ 0 := by
  intro hk
  apply h
  subst hk
  simp [totalHeight]

theorem fitLoop_terminates (M : TextMeasure) (text : String) (maxW maxH minSize : Nat) :
    ∀ size, minSize ≤ size →
      ∃ r, fitLoop true M text maxW maxH minSize size = .ok r := by
  intro size
  induction size using Nat.strong_induction_on with
  | _ size ih =>
    intro hle
    unfold fitLoop
    simp only [Bool.true_eq_false, if_false]
    by_cases hfit : totalHeight M size (wrapText M size text maxW).length ≤ maxH
    · rw [if_pos hfit]
      exact ⟨_, rfl⟩
    · rw [if_neg hfit]
      by_cases hstep : minSize + 2 ≤ size
      · rw [dif_pos hstep]
        exact ih (size - 2) (by omega) (by omega)
      · rw [dif_neg hstep]
        exact ⟨_, rfl⟩

theorem fitLoop_no_fit (M : TextMeasure) (text : String) (maxW maxH minSize : Nat) :
    ∀ size, minSize ≤ size →
      (∀ sz, minSize ≤ sz → sz ≤ size →
        ¬ totalHeight M sz (wrapText M sz text maxW).length ≤ maxH) →
      fitLoop true M text maxW maxH minSize size =
        .ok (minSize + (size - minSize) % 2,
          wrapText M (minSize + (size - minSize) % 2) text maxW) := by
  intro size
  induction size using Nat.strong_induction_on with
  | _ size ih =>
    intro hle hnone
    unfold fitLoop
    simp only [Bool.true_eq_false, if_false]
    rw [if_neg (hnone size hle le_rfl)]
    by_cases hstep : minSize + 2 ≤ size
    · rw [dif_pos hstep]
      have e : minSize + (size - 2 - minSize) % 2 = minSize + (size - minSize) % 2 := by
        omega
      rw [ih (size - 2) (by omega) (by omega)
        (fun sz h1 h2 => hnone sz h1 (by omega)), e]
    · rw [dif_neg hstep]
      have e : size = minSize + (size - minSize) % 2 := by omega
      rw [← e]

/-- C3, counterexample to the claim as stated: with start size 21 and
minimum size 20 no candidate size fits the box, yet the algorithm returns
size 21 (the last candidate tried), not the minimum size 20. -/
theorem C3_counterexample :
    fit_text_to_box true M0 "hello" 10 1 21 20 = .ok (21, ["hello"]) ∧
    ¬ (21 = 20) ∧
    (¬ totalHeight M0 20 (wrapText M0 20 "hello" 10).length ≤ 1) ∧
    (¬ totalHeight M0 21 (wrapText M0 21 "hello" 10).length ≤ 1) := by
  refine ⟨?_, by decide, by decide, by decide⟩
  unfold fit_text_to_box
  rw [if_neg (by omega)]
  unfold fitLoop
  decide

/-- C3, amended: for every measurement model, text, box, start size and
minimum size with start at least minimum, the text-fit loop terminates with
a result (no error and no unbounded search); and when no candidate size
fits the box height it returns the last candidate tried — the minimum size
when start and minimum have the same parity (as with the code's defaults
60/20), and minimum + 1 otherwise — together with a non-empty wrapped line
list (graceful degradation, no error). -/
theorem C3_fit_terminates_and_degrades (M : TextMeasure) (text : String)
    (maxW maxH startSize minSize : Nat) (h : minSize ≤ startSize) :
    (∃ r, fit_text_to_box true M text maxW maxH startSize minSize = .ok r) ∧
    ((∀ sz, minSize ≤ sz → sz ≤ startSize →
        ¬ totalHeight M sz (wrapText M sz text maxW).length ≤ maxH) →
      fit_text_to_box true M text maxW maxH startSize minSize =
        .ok (minSize + (startSize - minSize) % 2,
          wrapText M (minSize + (startSize - minSize) % 2) text maxW) ∧
      ¬ wrapText M (minSize + (startSize - minSize) % 2) text maxW = []) := by
  constructor
  · unfold fit_text_to_box
    rw [if_neg (by omega)]
    exact fitLoop_terminates M text maxW maxH minSize startSize h
  · intro hnone
    constructor
    · unfold fit_text_to_box
      rw [if_neg (by omega)]
      exact fitLoop_no_fit M text maxW maxH minSize startSize h hnone
    · intro hnil
      have hlast := hnone (minSize + (startSize - minSize) % 2) (by omega) (by omega)
      have := totalHeight_pos_count hlast
      rw [hnil] at this
      exact this rfl

/-- Witness for C3: the amended theorem applied to the concrete no-fit
configuration with start 21, minimum 20. -/
theorem C3_fit_terminates_and_degrades_witness :
    (∃ r, fit_text_to_box true M0 "hello" 10 1 21 20 = .ok r) ∧
    (fit_text_to_box true M0 "hello" 10 1 21 20 =
      .ok (20 + (21 - 20) % 2, wrapText M0 (20 + (21 - 20) % 2) "hello" 10) ∧
    ¬ wrapText M0 (20 + (21 - 20) % 2) "hello" 10 = []) := by
  have h := C3_fit_terminates_and_degrades M0 "hello" 10 1 21 20 (by decide)
  refine ⟨h.1, h.2 ?_⟩
  intro sz h1 h2
  interval_cases sz <;> decide

/-- The key outputs of `generate_quote_image` that the embedding tracks
(the pixel operations on the canvas are abstracted away; what matters for
the claims is which inputs are consulted, in which order, and where the
pipeline can fail). -/
structure GenResult where
  usedDefaultMainFont : Bool
  usedDefaultSecondFont : Bool
  bodySize : Nat
  bodyLines : List String
  firstLine : String
  speakerName : String
  dateText : String
  usedSticker : Bool
deriving DecidableEq, Repr

/-- Model of `QuoteImageGenerator.generate_quote_image`, following the
source order: open the quote-sign and scroll assets (`Image.open`, no
fallback), load the main font with a try/except fallback to the default
font, render the body text, fit it with `fit_text_to_box` (which re-loads
the font from its path with NO fallback), take the first wrapped line,
load the second font with a fallback, read `quote.phrases[0].speaker.name`
and the formatted date, and paste the first sticker when one is supplied.
`fontOk` tells whether `ImageFont.truetype` succeeds for a given path,
`signOk`/`scrollOk` whether the two `Image.open` calls succeed. -/
def generate_quote_image (fontOk : String → Bool) (signOk scrollOk : Bool)
    (M : TextMeasure) (q : Quote) (images : List String) : Except RenderErr GenResult :=
  if signOk = false then .error .assetMissing
  else if scrollOk = false then .error .assetMissing
  else
    match generate_quote q with
    | none => .error .speakerUnset
    | some text =>
      match fit_text_to_box (fontOk "assets/SourceSans3-BoldItalic.ttf") M text
          (1100 - (512 + 40) - 40) (512 - 120) 60 20 with
      | .error e => .error e
      | .ok (size, lines) =>
        match lines.head? with
        | none => .error .emptyLines
        | some firstLine =>
          match q.phrases.head? with
          | none => .error .emptyPhrases
          | some p0 =>
            match p0.speaker with
            | none => .error .speakerUnset
            | some sp =>
              .ok { usedDefaultMainFont := !fontOk "assets/SourceSans3-BoldItalic.ttf",
                    usedDefaultSecondFont := !fontOk "assets/Gabriela-Regular.ttf",
                    bodySize := size,
                    bodyLines := lines,
                    firstLine := firstLine,
                    speakerName := sp.name,
                    dateText := parse_date_to_string q.date,
                    usedSticker := !images.isEmpty }

/-- C4 fails on the code: for a completed single-phrase quote with the font
asset files missing (and the other assets present), image generation does
not fall back to the default font — the `ImageFont.truetype` call inside
`fit_text_to_box` has no try/except and the pipeline raises. -/
theorem C4_missing_font_raises_inside_fit :
    generate_quote_image (fun _ => false) true true M0
      ⟨[⟨some ⟨"Bob", none⟩, "Hi", none⟩], ⟨25, 6, 2005⟩⟩ [] =
      .error .fontMissing := by
  unfold generate_quote_image fit_text_to_box fitLoop
  decide

/-- The registered states of `tsytatobot.py` (`QuoteState`, `PhraseState`
without its unused context state, `SpeakerState`). -/
inductive BotState where
  | waiting_for_date
  | waiting_for_text
  | waiting_for_name
  | waiting_for_name_end
  | waiting_for_if_add_image_answer
  | waiting_for_speaker_image
  | waiting_for_next_step
deriving DecidableEq, Repr

/-- The per-key data dictionary of the state storage: the in-progress quote
under "quote" and the "bypass_image" flag (absent models as `none`/`false`). -/
structure SessionData where
  quote : Option Quote
  bypass_image : Bool
deriving DecidableEq, Repr

/-- The whole state the handlers touch for one `(user, chat)` key: the
storage record (state plus data; `none` after `delete_state`) and the
speaker repository shared through `speakers.json`. -/
structure GState where
  session : Option (BotState × SessionData)
  repo : List Speaker
deriving DecidableEq, Repr

/-- The inbound events the handlers distinguish: the `/quote` command, a
plain text message, and a sticker message carrying a file id. -/
inductive Event where
  | cmdQuote
  | text (s : String)
  | sticker (fileId : String)
deriving DecidableEq, Repr

/-- Model of `get_quote_from_state`. -/
def getQuote (g : GState) : Option Quote :=
  match g.session with
  | some (_, d) => d.quote
  | none => none

/-- Model of `get_bypass_image_from_state` read as the truthiness test
`is True` of the handlers. -/
def getBypass (g : GState) : Bool :=
  match g.session with
  | some (_, d) => d.bypass_image
  | none => false

/-- Model of `bot.set_state`: keep the data of an existing record, create a
fresh record otherwise. -/
def setState (g : GState) (st : BotState) : GState :=
  { g with session :=
      match g.session with
      | some (_, d) => some (st, d)
      | none => some (st, ⟨none, false⟩) }

/-- Model of `bot.add_data` on an existing record. -/
def setData (g : GState) (f : SessionData → SessionData) : GState :=
  { g with session := g.session.map (fun p => (p.1, f p.2)) }

/-- Button-label matching `m.text.lower().strip() in [...]` of the handlers. -/
def isCancelText (s : String) : Bool :=
  lowerStrip s == "cancel" || lowerStrip s == "❌ cancel"

def isYesText (s : String) : Bool :=
  lowerStrip s == "yes" || lowerStrip s == "✔️ yes"

def isNoText (s : String) : Bool :=
  lowerStrip s == "no" || lowerStrip s == "❌ no"

def isFinalizeText (s : String) : Bool :=
  lowerStrip s == "finalize" || lowerStrip s == "✔️ finalize"

def isAddText (s : String) : Bool :=
  lowerStrip s == "add" || lowerStrip s == "➕ add"

/-- Replace the speaker of the last phrase (`quote.phrases[-1].speaker = sp`). -/
def setLastSpeaker (q : Quote) (sp : Speaker) : Quote :=
  match q.phrases.getLast? with
  | none => q
  | some lastp => { q with phrases := q.phrases.dropLast ++ [{ lastp with speaker := some sp }] }

/-- In-place image assignment on the first repository record with the given
name: reproduces the aliasing effect of
`quote.phrases[-1].speaker.speaker_image_id = sticker_id`, which mutates
the very object stored in the repository list. -/
def updateRepoImage (n : String) (fid : String) : List Speaker → List Speaker
  | [] => []
  | s :: rest =>
    if s.name == n then { s with speaker_image_id := some fid } :: rest
    else s :: updateRepoImage n fid rest

/-- Each handler returns the next global state together with the list of
quotes passed to the render pipeline `get_quote_text_and_image` while it
ran. A handler that would raise (attribute or index error on missing data)
aborts with the storage mutations made so far, which for these handlers is
the untouched state. -/
def process_cancel (g : GState) : GState × List Quote :=
  ({ g with session := none }, [])

/-- Model of the `/quote` handler `create_quote`: reset the record, set the
date state with fresh data. -/
def create_quote (g : GState) : GState × List Quote :=
  ({ g with session := some (.waiting_for_date, ⟨none, false⟩) }, [])

/-- Model of `process_quote_date`. -/
def process_quote_date (today : Date) (s : String) (g : GState) : GState × List Quote :=
  match parse_string_to_date today s with
  | none => (setState g .waiting_for_date, [])
  | some dt =>
    (setState (setData g (fun d => { d with quote := some ⟨[], dt⟩ })) .waiting_for_text, [])

/-- Model of `process_phrase_text`: append a placeholder-speaker phrase. -/
def process_phrase_text (s : String) (g : GState) : GState × List Quote :=
  match getQuote g with
  | none => (g, [])
  | some q =>
    let q := { q with phrases := q.phrases ++ [⟨none, s, none⟩] }
    (setState (setData g (fun d => { d with quote := some q })) .waiting_for_name, [])

/-- Model of `process_speaker_name_end`: read the last speaker name, move to
the next-step state and render the preview (one render emission). -/
def process_speaker_name_end (g : GState) : GState × List Quote :=
  match getQuote g with
  | none => (g, [])
  | some q =>
    match q.phrases.getLast? with
    | none => (g, [])
    | some lastp =>
      match lastp.speaker with
      | none => (g, [])
      | some _ => (setState g .waiting_for_next_step, [q])

/-- Model of `continue_after_speaker_set`: ask the image question when the
attached speaker has no image and the session bypass flag is unset,
otherwise go straight to the next-step preview. -/
def continue_after_speaker_set (g : GState) : GState × List Quote :=
  match getQuote g with
  | none => (g, [])
  | some q =>
    match q.phrases.getLast? with
    | none => (g, [])
    | some lastp =>
      match lastp.speaker with
      | none => (g, [])
      | some sp =>
        if sp.speaker_image_id = none ∧ getBypass g = false then
          (setState g .waiting_for_if_add_image_answer, [])
        else
          process_speaker_name_end (setState g .waiting_for_next_step)

/-- Model of `process_new_speaker_name`: attach a fresh speaker to the last
phrase, persist it, then continue. -/
def process_new_speaker_name (s : String) (g : GState) : GState × List Quote :=
  match getQuote g with
  | none => (g, [])
  | some q =>
    match q.phrases.getLast? with
    | none => (g, [])
    | some _ =>
      let sp : Speaker := ⟨s, none⟩
      let q := setLastSpeaker q sp
      let g := { g with repo := save_speaker sp g.repo }
      let g := setData g (fun d => { d with quote := some q })
      continue_after_speaker_set (setState g .waiting_for_name_end)

/-- Model of `process_existing_speaker_name`: attach the stored speaker and
continue (nothing is persisted). -/
def process_existing_speaker_name (s : String) (g : GState) : GState × List Quote :=
  match get_speaker s g.repo with
  | none => (g, [])
  | some sp =>
    match getQuote g with
    | none => (g, [])
    | some q =>
      match q.phrases.getLast? with
      | none => (g, [])
      | some _ =>
        let q := setLastSpeaker q sp
        let g := setData g (fun d => { d with quote := some q })
        continue_after_speaker_set (setState g .waiting_for_name_end)

/-- Model of `process_speaker_id_add_image_answer_yes`. -/
def process_answer_yes (g : GState) : GState × List Quote :=
  (setState g .waiting_for_speaker_image, [])

/-- Model of `process_speaker_id_add_image_answer_no`: set the bypass flag
and continue. -/
def process_answer_no (g : GState) : GState × List Quote :=
  let g := setData g (fun d => { d with bypass_image := true })
  continue_after_speaker_set (setState g .waiting_for_name_end)

/-- Model of `process_speaker_id_add_image_answer_unknown`: scold the user
and move to the name-end state. -/
def process_answer_unknown (g : GState) : GState × List Quote :=
  (setState g .waiting_for_name_end, [])

/-- Model of `process_speaker_image`: assign the sticker id to the attached
speaker (whose object is aliased with the repository record), persist, and
render via `process_speaker_name_end`. -/
def process_speaker_image (fid : String) (g : GState) : GState × List Quote :=
  match getQuote g with
  | none => (g, [])
  | some q =>
    match q.phrases.getLast? with
    | none => (g, [])
    | some lastp =>
      match lastp.speaker with
      | none => (g, [])
      | some sp =>
        let sp' : Speaker := { sp with speaker_image_id := some fid }
        let q' := setLastSpeaker q sp'
        let g := { g with repo := save_speaker sp' (updateRepoImage sp.name fid g.repo) }
        let g := setState g .waiting_for_name_end
        let g := setData g (fun d => { d with quote := some q' })
        process_speaker_name_end g

/-- Model of `process_speaker_image_unknown` (non-sticker input while an
image is awaited): re-prompt, no state change. -/
def process_speaker_image_unknown (g : GState) : GState × List Quote :=
  (g, [])

/-- Model of `process_next_step_finalize_option`: render once more, post to
the channel, destroy the session. -/
def process_finalize (g : GState) : GState × List Quote :=
  match getQuote g with
  | none => (g, [])
  | some q => ({ g with session := none }, [q])

/-- Model of `process_next_step_add_option`. -/
def process_add (g : GState) : GState × List Quote :=
  (setState g .waiting_for_text, [])

/-- Model of `process_next_step_incorrect_option`. -/
def process_incorrect (g : GState) : GState × List Quote :=
  (setState g .waiting_for_next_step, [])

/-- The registration-order filter of `process_speaker_name_end`
(`quote.phrases[-1].speaker.speaker_image_id is not None or bypass is True`):
`none` models the filter itself raising, which aborts dispatch of the
message entirely. -/
def nameEndFilter (g : GState) : Option Bool :=
  match getQuote g with
  | none => none
  | some q =>
    match q.phrases.getLast? with
    | none => none
    | some p =>
      match p.speaker with
      | none => none
      | some sp => some (!(sp.speaker_image_id = none) || getBypass g)

/-- One dispatch step of the bot for one key: pyTelegramBotAPI delivers the
message to the FIRST registered handler whose filters all pass, in the
registration order of `tsytatobot.py` (command handler, the per-state text
handlers, then — after all of them — the catch-all cancel handler with
`state="*"`, then the next-step fallback). Sticker messages only match the
sticker content-type handler of the image state. The pair returned is the
next global state and the quotes passed to the render pipeline. -/
def step (today : Date) (g : GState) (e : Event) : GState × List Quote :=
  match e with
  | .cmdQuote => create_quote g
  | .sticker fid =>
    match g.session with
    | some (.waiting_for_speaker_image, _) => process_speaker_image fid g
    | _ => (g, [])
  | .text s =>
    match g.session with
    | some (.waiting_for_date, _) => process_quote_date today s g
    | some (.waiting_for_text, _) => process_phrase_text s g
    | some (.waiting_for_name, _) =>
      match get_speaker s g.repo with
      | none => process_new_speaker_name s g
      | some _ => process_existing_speaker_name s g
    | some (.waiting_for_if_add_image_answer, _) =>
      if isYesText s then process_answer_yes g
      else if isNoText s then process_answer_no g
      else process_answer_unknown g
    | some (.waiting_for_speaker_image, _) => process_speaker_image_unknown g
    | some (.waiting_for_name_end, _) =>
      match nameEndFilter g with
      | none => (g, [])
      | some true => process_speaker_name_end g
      | some false => if isCancelText s then process_cancel g else (g, [])
    | some (.waiting_for_next_step, _) =>
      if isFinalizeText s then process_finalize g
      else if isAddText s then process_add g
      else if isCancelText s then process_cancel g
      else process_incorrect g
    | none => if isCancelText s then process_cancel g else (g, [])

/-- The states reachable by the bot from a fresh process (no session record,
any repository contents loaded from disk). -/
inductive Reachable (today : Date) : GState → Prop where
  | init (repo : List Speaker) : Reachable today ⟨none, repo⟩
  | next {g : GState} (e : Event) (h : Reachable today g) :
      Reachable today (step today g e).1

/-- Every phrase of the list has a resolved (non-null) speaker. -/
def resolvedPhrases (ps : List Phrase) : Prop :=
  ∀ p ∈ ps, p.speaker.isSome = true

/-- A quote acceptable to the render pipeline: at least one phrase, every
phrase with a resolved speaker. -/
def QuoteOk (q : Quote) : Prop :=
  q.phrases ≠ [] ∧ resolvedPhrases q.phrases

/-- The session invariant, by state: before the date there is no quote yet
to constrain; while awaiting phrase text all phrases are resolved (the list
may be empty); while awaiting the speaker name the last phrase is the
freshly appended unresolved one and all earlier phrases are resolved; in
every later state the quote is fully resolved and non-empty. -/
def InvG (g : GState) : Prop :=
  match g.session with
  | none => True
  | some (st, d) =>
    match st with
    | .waiting_for_date => True
    | .waiting_for_text => ∀ q, d.quote = some q → resolvedPhrases q.phrases
    | .waiting_for_name => ∀ q, d.quote = some q →
        q.phrases ≠ [] ∧ resolvedPhrases q.phrases.dropLast
    | _ => ∀ q, d.quote = some q → QuoteOk q

theorem quoteOk_setLastSpeaker {q : Quote} {sp : Speaker}
    (h1 : q.phrases ≠ []) (h2 : resolvedPhrases q.phrases.dropLast) :
    QuoteOk (setLastSpeaker q sp) := by
  unfold setLastSpeaker
  cases e : q.phrases.getLast? with
  | none => exact absurd (List.getLast?_eq_none_iff.mp e) h1
  | some lastp =>
    constructor
    · simp
    · intro p hp
      simp only [List.mem_append, List.mem_singleton] at hp
      rcases hp with hp | rfl
      · exact h2 p hp
      · rfl

theorem resolved_dropLast {ps : List Phrase} (h : resolvedPhrases ps) :
    resolvedPhrases ps.dropLast :=
  fun p hp => h p (List.dropLast_subset ps hp)

theorem name_end_spec (st : BotState) (d : SessionData) (repo : List Speaker)
    (hst : st = BotState.waiting_for_name_end ∨ st = BotState.waiting_for_next_step)
    (h : ∀ q, d.quote = some q → QuoteOk q) :
    InvG (process_speaker_name_end ⟨some (st, d), repo⟩).1 ∧
    ∀ q ∈ (process_speaker_name_end ⟨some (st, d), repo⟩).2, QuoteOk q := by
  have hInvSelf : InvG ⟨some (st, d), repo⟩ := by
    rcases hst with rfl | rfl
    · exact h
    · exact h
  unfold process_speaker_name_end
  cases hq : getQuote ⟨some (st, d), repo⟩ with
  | none => dsimp only; exact ⟨hInvSelf, by simp⟩
  | some q =>
    dsimp only
    cases hl : q.phrases.getLast? with
    | none => dsimp only; exact ⟨hInvSelf, by simp⟩
    | some lastp =>
      dsimp only
      cases hsp : lastp.speaker with
      | none => dsimp only; exact ⟨hInvSelf, by simp⟩
      | some sp =>
        dsimp only
        constructor
        · exact h
        · intro q' hq'
          simp only [List.mem_singleton] at hq'
          subst hq'
          exact h q' hq

theorem continue_spec (d : SessionData) (repo : List Speaker)
    (h : ∀ q, d.quote = some q → QuoteOk q) :
    InvG (continue_after_speaker_set ⟨some (.waiting_for_name_end, d), repo⟩).1 ∧
    ∀ q ∈ (continue_after_speaker_set ⟨some (.waiting_for_name_end, d), repo⟩).2,
      QuoteOk q := by
  unfold continue_after_speaker_set
  cases hq : getQuote ⟨some (.waiting_for_name_end, d), repo⟩ with
  | none => dsimp only; exact ⟨h, by simp⟩
  | some q =>
    dsimp only
    cases hl : q.phrases.getLast? with
    | none => dsimp only; exact ⟨h, by simp⟩
    | some lastp =>
      dsimp only
      cases hsp : lastp.speaker with
      | none => dsimp only; exact ⟨h, by simp⟩
      | some sp =>
        dsimp only
        by_cases hc : sp.speaker_image_id = none ∧
            getBypass ⟨some (.waiting_for_name_end, d), repo⟩ = false
        · rw [if_pos hc]
          exact ⟨h, by simp⟩
        · rw [if_neg hc]
          exact name_end_spec _ d repo (Or.inr rfl) h

theorem phrase_text_spec (s : String) (d : SessionData) (repo : List Speaker)
    (h : ∀ q, d.quote = some q → resolvedPhrases q.phrases) :
    InvG (process_phrase_text s ⟨some (.waiting_for_text, d), repo⟩).1 ∧
    (process_phrase_text s ⟨some (.waiting_for_text, d), repo⟩).2 = [] := by
  unfold process_phrase_text
  cases hq : getQuote ⟨some (.waiting_for_text, d), repo⟩ with
  | none => dsimp only; exact ⟨h, rfl⟩
  | some q =>
    dsimp only
    refine ⟨?_, rfl⟩
    intro q' hq'
    simp only [setState, setData, Option.map_some] at hq'
    cases hq'
    constructor
    · simp
    · rw [List.dropLast_concat]
      exact h q hq

theorem new_speaker_spec (s : String) (d : SessionData) (repo : List Speaker)
    (h : ∀ q, d.quote = some q →
      q.phrases ≠ [] ∧ resolvedPhrases q.phrases.dropLast) :
    InvG (process_new_speaker_name s ⟨some (.waiting_for_name, d), repo⟩).1 ∧
    ∀ q ∈ (process_new_speaker_name s ⟨some (.waiting_for_name, d), repo⟩).2,
      QuoteOk q := by
  unfold process_new_speaker_name
  cases hq : getQuote ⟨some (.waiting_for_name, d), repo⟩ with
  | none => dsimp only; exact ⟨h, by simp⟩
  | some q =>
    dsimp only
    cases hl : q.phrases.getLast? with
    | none => dsimp only; exact ⟨h, by simp⟩
    | some lastp =>
      dsimp only
      have hok : QuoteOk (setLastSpeaker q ⟨s, none⟩) :=
        quoteOk_setLastSpeaker (h q hq).1 (h q hq).2
      have := continue_spec { d with quote := some (setLastSpeaker q ⟨s, none⟩) }
        (save_speaker ⟨s, none⟩ repo)
        (by intro q' hq'; cases hq'; exact hok)
      simpa [setState, setData] using this

theorem existing_speaker_spec (s : String) (d : SessionData) (repo : List Speaker)
    (h : ∀ q, d.quote = some q →
      q.phrases ≠ [] ∧ resolvedPhrases q.phrases.dropLast) :
    InvG (process_existing_speaker_name s ⟨some (.waiting_for_name, d), repo⟩).1 ∧
    ∀ q ∈ (process_existing_speaker_name s ⟨some (.waiting_for_name, d), repo⟩).2,
      QuoteOk q := by
  unfold process_existing_speaker_name
  cases hg : get_speaker s repo with
  | none => dsimp only; exact ⟨h, by simp⟩
  | some sp =>
    cases hq : getQuote ⟨some (.waiting_for_name, d), repo⟩ with
    | none => dsimp only; exact ⟨h, by simp⟩
    | some q =>
      dsimp only
      cases hl : q.phrases.getLast? with
      | none => dsimp only; exact ⟨h, by simp⟩
      | some lastp =>
        dsimp only
        have hok : QuoteOk (setLastSpeaker q sp) :=
          quoteOk_setLastSpeaker (h q hq).1 (h q hq).2
        have := continue_spec { d with quote := some (setLastSpeaker q sp) } repo
          (by intro q' hq'; cases hq'; exact hok)
        simpa [setState, setData] using this

theorem answer_no_spec (d : SessionData) (repo : List Speaker)
    (h : ∀ q, d.quote = some q → QuoteOk q) :
    InvG (process_answer_no ⟨some (.waiting_for_if_add_image_answer, d), repo⟩).1 ∧
    ∀ q ∈ (process_answer_no ⟨some (.waiting_for_if_add_image_answer, d), repo⟩).2,
      QuoteOk q := by
  unfold process_answer_no
  have := continue_spec { d with bypass_image := true } repo
    (by intro q hq; exact h q hq)
  simpa [setState, setData] using this

theorem speaker_image_spec (fid : String) (d : SessionData) (repo : List Speaker)
    (h : ∀ q, d.quote = some q → QuoteOk q) :
    InvG (process_speaker_image fid ⟨some (.waiting_for_speaker_image, d), repo⟩).1 ∧
    ∀ q ∈ (process_speaker_image fid ⟨some (.waiting_for_speaker_image, d), repo⟩).2,
      QuoteOk q := by
  unfold process_speaker_image
  cases hq : getQuote ⟨some (.waiting_for_speaker_image, d), repo⟩ with
  | none => dsimp only; exact ⟨h, by simp⟩
  | some q =>
    dsimp only
    cases hl : q.phrases.getLast? with
    | none => dsimp only; exact ⟨h, by simp⟩
    | some lastp =>
      dsimp only
      cases hsp : lastp.speaker with
      | none => dsimp only; exact ⟨h, by simp⟩
      | some sp =>
        dsimp only
        have hok : QuoteOk (setLastSpeaker q ⟨sp.name, some fid⟩) :=
          quoteOk_setLastSpeaker (h q hq).1 (resolved_dropLast (h q hq).2)
        have := name_end_spec .waiting_for_name_end
          { d with quote := some (setLastSpeaker q ⟨sp.name, some fid⟩) }
          (save_speaker ⟨sp.name, some fid⟩ (updateRepoImage sp.name fid repo))
          (Or.inl rfl)
          (by intro q' hq'; cases hq'; exact hok)
        simpa [setState, setData] using this

/-- One dispatch step preserves the session invariant, and every quote it
passes to the render pipeline is non-empty and fully resolved. -/
theorem step_preserves (today : Date) (g : GState) (e : Event) (hg : InvG g) :
    InvG (step today g e).1 ∧ ∀ q ∈ (step today g e).2, QuoteOk q := by
  obtain ⟨sess, repo⟩ := g
  cases e with
  | cmdQuote => exact ⟨trivial, by simp [step, create_quote]⟩
  | sticker fid =>
    cases sess with
    | none => exact ⟨trivial, by simp [step]⟩
    | some p =>
      obtain ⟨st, d⟩ := p
      cases st <;> try exact ⟨hg, by simp [step]⟩
      exact speaker_image_spec fid d repo hg
  | text s =>
    cases sess with
    | none =>
      unfold step
      dsimp only
      by_cases hc : isCancelText s = true
      · rw [if_pos hc]
        exact ⟨trivial, by simp [process_cancel]⟩
      · rw [if_neg hc]
        exact ⟨trivial, by simp⟩
    | some p =>
      obtain ⟨st, d⟩ := p
      cases st with
      | waiting_for_date =>
        unfold step process_quote_date
        dsimp only
        cases parse_string_to_date today s with
        | none => dsimp only; exact ⟨trivial, by simp⟩
        | some dt =>
          dsimp only
          refine ⟨?_, by simp⟩
          intro q hq
          simp only [setState, setData, Option.map_some] at hq
          cases hq
          intro p hp
          cases hp
      | waiting_for_text =>
        unfold step
        dsimp only
        obtain ⟨h1, h2⟩ := phrase_text_spec s d repo hg
        exact ⟨h1, by rw [h2]; simp⟩
      | waiting_for_name =>
        unfold step
        dsimp only
        cases hgs : get_speaker s repo with
        | none => exact new_speaker_spec s d repo hg
        | some sp => exact existing_speaker_spec s d repo hg
      | waiting_for_if_add_image_answer =>
        unfold step
        dsimp only
        by_cases hy : isYesText s = true
        · rw [if_pos hy]
          exact ⟨hg, by simp [process_answer_yes]⟩
        · rw [if_neg hy]
          by_cases hn : isNoText s = true
          · rw [if_pos hn]
            exact answer_no_spec d repo hg
          · rw [if_neg hn]
            exact ⟨hg, by simp [process_answer_unknown]⟩
      | waiting_for_speaker_image =>
        unfold step
        dsimp only
        exact ⟨hg, by simp [process_speaker_image_unknown]⟩
      | waiting_for_name_end =>
        unfold step
        dsimp only
        cases nameEndFilter ⟨some (.waiting_for_name_end, d), repo⟩ with
        | none => exact ⟨hg, by simp⟩
        | some b =>
          cases b with
          | true => exact name_end_spec _ d repo (Or.inl rfl) hg
          | false =>
            by_cases hc : isCancelText s = true
            · rw [if_pos hc]
              exact ⟨trivial, by simp [process_cancel]⟩
            · rw [if_neg hc]
              exact ⟨hg, by simp⟩
      | waiting_for_next_step =>
        unfold step
        dsimp only
        by_cases hf : isFinalizeText s = true
        · rw [if_pos hf]
          unfold process_finalize
          cases hq : getQuote ⟨some (.waiting_for_next_step, d), repo⟩ with
          | none => dsimp only; exact ⟨hg, by simp⟩
          | some q =>
            dsimp only
            refine ⟨trivial, ?_⟩
            intro q' hq'
            simp only [List.mem_singleton] at hq'
            subst hq'
            exact hg q' hq
        · rw [if_neg hf]
          by_cases ha : isAddText s = true
          · rw [if_pos ha]
            refine ⟨?_, by simp [process_add]⟩
            intro q hq
            exact (hg q hq).2
          · rw [if_neg ha]
            by_cases hc : isCancelText s = true
            · rw [if_pos hc]
              exact ⟨trivial, by simp [process_cancel]⟩
            · rw [if_neg hc]
              exact ⟨hg, by simp [process_incorrect]⟩

/-- Every reachable state satisfies the session invariant. -/
theorem reachable_inv {today : Date} {g : GState} (h : Reachable today g) : InvG g := by
  induction h with
  | init repo => trivial
  | next e h ih => exact (step_preserves today _ e ih).1

/-- C9: in every reachable state of the authoring machine, every quote that
a dispatch step passes to the render pipeline (preview on entering the
next-step state, or finalize) has at least one phrase, and every phrase has
a resolved speaker. -/
theorem C9_render_pipeline_inputs_wellformed (today : Date) {g : GState} (e : Event)
    (h : Reachable today g) :
    ∀ q ∈ (step today g e).2,
      q.phrases ≠ [] ∧ ∀ p ∈ q.phrases, p.speaker.isSome = true :=
  (step_preserves today g e (reachable_inv h)).2

/-- Witness for C9: the concrete session start, "today", phrase "hi",
new speaker "Bob", answer "no" — the "no" answer triggers the preview
render, whose emitted quote is the one-phrase fully resolved quote. -/
theorem C9_render_pipeline_inputs_wellformed_witness :
    (step ⟨12, 10, 2026⟩
      (step ⟨12, 10, 2026⟩
        (step ⟨12, 10, 2026⟩
          (step ⟨12, 10, 2026⟩
            (step ⟨12, 10, 2026⟩ ⟨none, []⟩ .cmdQuote).1
            (.text "today")).1
          (.text "hi")).1
        (.text "Bob")).1
      (.text "no")).2 =
      [⟨[⟨some ⟨"Bob", none⟩, "hi", none⟩], ⟨12, 10, 2026⟩⟩] ∧
    ∀ q ∈ (step ⟨12, 10, 2026⟩
      (step ⟨12, 10, 2026⟩
        (step ⟨12, 10, 2026⟩
          (step ⟨12, 10, 2026⟩
            (step ⟨12, 10, 2026⟩ ⟨none, []⟩ .cmdQuote).1
            (.text "today")).1
          (.text "hi")).1
        (.text "Bob")).1
      (.text "no")).2,
      q.phrases ≠ [] ∧ ∀ p ∈ q.phrases, p.speaker.isSome = true :=
  ⟨by decide,
    C9_render_pipeline_inputs_wellformed ⟨12, 10, 2026⟩ (.text "no")
      (((((Reachable.init []).next .cmdQuote).next (.text "today")).next
        (.text "hi")).next (.text "Bob"))⟩

/-- C1 fails on the code: the cancel handler is registered with `state="*"`
after the per-state catch-all handlers, and pyTelegramBotAPI dispatches to
the first matching handler; so in `waiting_for_date` the text "cancel" is
consumed by `process_quote_date` as a malformed date — the bot re-prompts
and the session survives in `waiting_for_date` instead of being destroyed. -/
theorem C1_cancel_shadowed_in_waiting_for_date :
    isCancelText "cancel" = true ∧
    (step ⟨12, 10, 2026⟩
      (step ⟨12, 10, 2026⟩ ⟨none, []⟩ .cmdQuote).1 (.text "cancel")).1.session =
      some (.waiting_for_date, ⟨none, false⟩) ∧
    ¬ (step ⟨12, 10, 2026⟩
      (step ⟨12, 10, 2026⟩ ⟨none, []⟩ .cmdQuote).1 (.text "cancel")).1.session = none := by
  refine ⟨by decide, by decide, by decide⟩

/-- C2 fails on the code for the yes/no question: an answer other than
yes/no in `waiting_for_if_add_image_answer` is handled by
`process_speaker_id_add_image_answer_unknown`, which moves the session to
`waiting_for_name_end` (a state whose handler filter rejects this session,
leaving only cancel available) instead of re-prompting in the same state,
even though its reply text asks the user to answer yes or no again. -/
theorem C2_unknown_answer_changes_state :
    (step ⟨12, 10, 2026⟩
      ⟨some (.waiting_for_if_add_image_answer,
        ⟨some ⟨[⟨some ⟨"Bob", none⟩, "hi", none⟩], ⟨12, 10, 2026⟩⟩, false⟩),
        [⟨"Bob", none⟩]⟩
      (.text "maybe")).1.session =
      some (.waiting_for_name_end,
        ⟨some ⟨[⟨some ⟨"Bob", none⟩, "hi", none⟩], ⟨12, 10, 2026⟩⟩, false⟩) ∧
    ¬ (BotState.waiting_for_name_end = BotState.waiting_for_if_add_image_answer) := by
  refine ⟨by decide, by decide⟩

end Tsytato
